import Mathlib

/-!
Verification of the in-memory metrics aggregation core of
`go-simple-metrics`, together with the fan-out shutdown path and the
timer measurement path.

Conventions of the embedding:
* wall-clock instants and durations are natural numbers of nanoseconds;
* `float64` observation values are embedded as rationals; the
  accumulator arithmetic is modelled twice: `AggregateSample.Ingest` is
  the exact-rational idealization (which agrees with `float64` at the
  magnitudes of the concrete scenarios), while `AggregateSample.IngestF`
  models the binary64 round-to-nearest-even accumulation the program
  actually performs, via the correctly-rounding `roundF`;
* Go maps keyed by the metric hash are embedded as association lists
  updated in place;
* the square root taken for the displayed standard deviation is kept
  symbolic: snapshots expose the radicand (`StddevArg`), and theorems
  relate `Real.sqrt` of that radicand to the decimal literals of the
  specification.

The repository's `inmem.go` is not part of the source tree given here
(only its tests and callers are), so every definition of the in-memory
sink below is modelled from the specification text, as indicated by its
doc comment.
-/

namespace SimpleMetrics

/-- A metric label, from `start.go` (`type Label struct { Name, Value string }`). -/
structure Label where
  Name : String
  Value : String
deriving DecidableEq, Repr

/-- The metric kind enumeration, from `metrics.go` (`MetricTypeCounter`,
`MetricTypeGauge`, `MetricTypeTimer`, `MetricTypeHistogram`,
`MetricTypeDistribution`). -/
inductive MetricType where
  | Counter
  | Gauge
  | Timer
  | Histogram
  | Distribution
deriving DecidableEq, Repr

/-- Modelled from the spec: the running statistical accumulator
`AggregateSample` of the missing `inmem.go`
(`count`, `sum`, `sumSquared`, `min`, `max`, `lastUpdated`). -/
structure AggregateSample where
  Count : ℕ
  Sum : ℚ
  SumSq : ℚ
  Min : ℚ
  Max : ℚ
  LastUpdated : ℕ
deriving DecidableEq, Repr

/-- The zero-valued accumulator a fresh metric entry starts from. -/
def AggregateSample.empty : AggregateSample :=
  { Count := 0, Sum := 0, SumSq := 0, Min := 0, Max := 0, LastUpdated := 0 }

/-- Modelled from the spec: `ingest(value)` of the missing `inmem.go`:
`count += 1; sum += value; sumSquared += value*value;
min = min(min, value) or value if first; max = max(max, value) or value
if first; lastUpdated = now` — with the `+=` accumulations taken exact
(unrounded). This is the idealization used where rounding is immaterial
(the concrete scenarios' magnitudes are exact in `float64`);
`AggregateSample.IngestF` below models the `float64` rounding the
program actually performs on `sum` and `sumSquared`. -/
def AggregateSample.Ingest (a : AggregateSample) (v : ℚ) (now : ℕ) : AggregateSample :=
  { Count := a.Count + 1
    Sum := a.Sum + v
    SumSq := a.SumSq + v * v
    Min := if a.Count = 0 then v else min a.Min v
    Max := if a.Count = 0 then v else max a.Max v
    LastUpdated := now }

/-- The five statistical fields of an accumulator, leaving out the
bookkeeping timestamp. -/
def AggregateSample.stats (a : AggregateSample) : ℕ × ℚ × ℚ × ℚ × ℚ :=
  (a.Count, a.Sum, a.SumSq, a.Min, a.Max)

/-- Modelled from the spec: the dotted display name, obtained by joining
the key parts with `.` (seen as `Name` in the tests' expected output). -/
def flattenKey (keys : List String) : String :=
  String.intercalate "." keys

/-- Modelled from the spec: the canonical hash appends `;name=value` for
each label, in order, to the dotted key (seen as `Hash` in the tests'
expected output, e.g. `"foo.bar;a=b"`). -/
def metricHash (keys : List String) (labels : List Label) : String :=
  labels.foldl (fun h l => h ++ ";" ++ l.Name ++ "=" ++ l.Value) (flattenKey keys)

/-- Modelled from the spec: a gauge entry (`GaugeValue`): name, hash,
last-written value and display labels. -/
structure GaugeValue where
  Name : String
  Hash : String
  Value : ℚ
  DisplayLabels : List Label
deriving DecidableEq, Repr

/-- Modelled from the spec: a stored counter/sample entry (`SampledValue`
before display processing): name, hash, accumulator and display labels. -/
structure SampledValue where
  Name : String
  Hash : String
  Agg : AggregateSample
  DisplayLabels : List Label
deriving DecidableEq, Repr

/-- Update an association list at a key, building the new entry from the
old one when present; the Go code's `m[hash]` lookup-or-create idiom. -/
def updateAssoc {α : Type} (l : List (String × α)) (k : String) (f : Option α → α) :
    List (String × α) :=
  match l with
  | [] => [(k, f none)]
  | (k', v) :: rest =>
      if k' = k then (k', f (some v)) :: rest else (k', v) :: updateAssoc rest k f

/-- Lookup in an association list. -/
def lookupAssoc {α : Type} (l : List (String × α)) (k : String) : Option α :=
  match l with
  | [] => none
  | (k', v) :: rest => if k' = k then some v else lookupAssoc rest k

/-- Modelled from the spec: one time window (`IntervalMetrics`): the
logical interval identity and the three mappings from hash to entry. -/
structure IntervalMetrics where
  Interval : ℕ
  Gauges : List (String × GaugeValue)
  Counters : List (String × SampledValue)
  Samples : List (String × SampledValue)
deriving DecidableEq, Repr

/-- A fresh, empty window tagged with logical interval `i`. -/
def emptyWindow (i : ℕ) : IntervalMetrics :=
  { Interval := i, Gauges := [], Counters := [], Samples := [] }

/-- The lookup-or-create step shared by the counter and sample mappings:
a missing entry starts from the empty accumulator, an existing entry is
folded into. -/
def upsertSample (name hash : String) (labels : List Label) (v : ℚ) (now : ℕ) :
    Option SampledValue → SampledValue
  | none =>
      { Name := name, Hash := hash,
        Agg := AggregateSample.empty.Ingest v now, DisplayLabels := labels }
  | some sv => { sv with Agg := sv.Agg.Ingest v now }

/-- Modelled from the spec: fold one observation into a window, by kind:
gauges overwrite, counters aggregate, and timer/histogram/distribution
all aggregate into the samples mapping. -/
def emitToWindow (mType : MetricType) (name hash : String) (labels : List Label)
    (w : IntervalMetrics) (v : ℚ) (now : ℕ) : IntervalMetrics :=
  match mType with
  | .Gauge =>
      let g : GaugeValue := { Name := name, Hash := hash, Value := v, DisplayLabels := labels }
      { w with Gauges := updateAssoc w.Gauges hash (fun _ => g) }
  | .Counter =>
      { w with Counters := updateAssoc w.Counters hash (upsertSample name hash labels v now) }
  | _ =>
      { w with Samples := updateAssoc w.Samples hash (upsertSample name hash labels v now) }

/-- Modelled from the spec: the in-memory sink: interval and retention
durations (nanoseconds), the slot count `n = ceil(retention/interval)`,
and the ring of slots (`slots j` is the window last stored at ring
position `j`, if any). -/
structure InmemSink where
  intervalDuration : ℕ
  retentionDuration : ℕ
  n : ℕ
  slots : ℕ → Option IntervalMetrics

/-- Modelled from the spec: sink construction for positive durations:
`slot count = ceil(retention/interval)`, all slots initially empty. -/
def mkInmemSink (interval retention : ℕ) : InmemSink :=
  { intervalDuration := interval
    retentionDuration := retention
    n := (retention + interval - 1) / interval
    slots := fun _ => none }

/-- Modelled from the spec: `NewInmemSink` rejects a zero or negative
interval or retention at construction time (fails fast) and otherwise
builds the ring buffer. Durations are `time.Duration`, i.e. signed
nanosecond counts. -/
def NewInmemSink (interval retention : ℤ) : Option InmemSink :=
  if interval ≤ 0 ∨ retention ≤ 0 then none
  else some (mkInmemSink interval.toNat retention.toNat)

/-- The logical interval index of instant `t`:
`i = floor(elapsed / intervalDuration)`. -/
def InmemSink.currentIndex (s : InmemSink) (t : ℕ) : ℕ :=
  t / s.intervalDuration

/-- Modelled from the spec: `currentSlot()`: compute the logical interval
`i` of `t`; the slot for `i` is ring position `i mod n`; the stored
window is used only if its identity equals `i`, otherwise the slot is
(re)initialised to a fresh window for `i` before any read or write. -/
def InmemSink.currentWindow (s : InmemSink) (t : ℕ) : IntervalMetrics :=
  let i := s.currentIndex t
  match s.slots (i % s.n) with
  | some w => if w.Interval = i then w else emptyWindow i
  | none => emptyWindow i

/-- Write back the current window after folding in one observation. -/
def InmemSink.write (s : InmemSink) (mType : MetricType) (name hash : String)
    (labels : List Label) (v : ℚ) (t : ℕ) : InmemSink :=
  let i := s.currentIndex t
  let w := emitToWindow mType name hash labels (s.currentWindow t) v t
  { s with slots := fun j => if j = i % s.n then some w else s.slots j }

/-- Modelled from the spec: `BuildMetricEmitter(kind, key, labels)`
computes the display name and canonical hash once and returns the
emitter; emitting folds the value into the current window. In this
functional embedding the emitter threads the sink state and takes the
observation instant explicitly. -/
def BuildMetricEmitter (mType : MetricType) (keys : List String) (labels : List Label) :
    InmemSink → ℚ → ℕ → InmemSink :=
  let name := flattenKey keys
  let hash := metricHash keys labels
  fun s v t => s.write mType name hash labels v t

/-- Insert into a list sorted by the boolean relation `le`. -/
def insertSorted {α : Type} (le : α → α → Bool) (x : α) : List α → List α
  | [] => [x]
  | y :: ys => if le x y then x :: y :: ys else y :: insertSorted le x ys

/-- Insertion sort by the boolean relation `le`. -/
def sortOn {α : Type} (le : α → α → Bool) (l : List α) : List α :=
  l.foldr (insertSorted le) []

/-- Modelled from the spec: a display-ready counter/sample row of the
summary (`SampledValue` as exported): the aggregate fields together with
the derived `Rate`, `Mean` and the radicand of `Stddev`
(the exported standard deviation is `Real.sqrt StddevArg`). -/
structure DisplaySampled where
  Name : String
  Hash : String
  Count : ℕ
  Min : ℚ
  Max : ℚ
  Sum : ℚ
  SumSq : ℚ
  Rate : ℚ
  Mean : ℚ
  StddevArg : ℚ
  LastUpdated : ℕ
  DisplayLabels : List Label
deriving DecidableEq, Repr

/-- Modelled from the spec: derive the display row from a stored entry:
`rate = sum / intervalDuration.Seconds()`, `mean = sum/count`, and
`stddev = sqrt(max(0, sumSquared/count - mean^2) * count/(count-1))`
when `count > 1`, else `0` (here the radicand is produced). -/
def toDisplay (intervalNs : ℕ) (sv : SampledValue) : DisplaySampled :=
  let a := sv.Agg
  let mean : ℚ := a.Sum / (a.Count : ℚ)
  { Name := sv.Name
    Hash := sv.Hash
    Count := a.Count
    Min := a.Min
    Max := a.Max
    Sum := a.Sum
    SumSq := a.SumSq
    Rate := a.Sum / ((intervalNs : ℚ) / 1000000000)
    Mean := mean
    StddevArg := if 1 < a.Count then
        (max 0 (a.SumSq / (a.Count : ℚ) - mean ^ 2)) * (a.Count : ℚ) / ((a.Count : ℚ) - 1)
      else 0
    LastUpdated := a.LastUpdated
    DisplayLabels := sv.DisplayLabels }

/-- Name-then-hash order used for the deterministic summary output. -/
def displayLE (a b : DisplaySampled) : Bool :=
  if a.Name = b.Name then decide (a.Hash ≤ b.Hash) else decide (a.Name < b.Name)

/-- Name-then-hash order for gauge rows. -/
def gaugeLE (a b : GaugeValue) : Bool :=
  if a.Name = b.Name then decide (a.Hash ≤ b.Hash) else decide (a.Name < b.Name)

/-- Modelled from the spec: the exported summary shape
(`MetricsSummary`): an interval timestamp and the sorted gauge, counter
and sample rows. `Timestamp` is the start instant of the summarised
interval in nanoseconds. -/
structure MetricsSummary where
  Timestamp : ℕ
  Gauges : List GaugeValue
  Counters : List DisplaySampled
  Samples : List DisplaySampled
deriving DecidableEq, Repr

/-- Modelled from the spec: convert one window into the display summary:
copy out the three mappings, compute the derived statistics and sort by
name then hash. -/
def summarize (intervalNs : ℕ) (w : IntervalMetrics) : MetricsSummary :=
  { Timestamp := w.Interval * intervalNs
    Gauges := sortOn gaugeLE (w.Gauges.map Prod.snd)
    Counters := sortOn displayLE ((w.Counters.map Prod.snd).map (toDisplay intervalNs))
    Samples := sortOn displayLE ((w.Samples.map Prod.snd).map (toDisplay intervalNs)) }

/-- Modelled from the spec: `Data()` at instant `t`: the retained
windows. A slot's window is retained when its identity is no older than
`n - 1` intervals before the current one and not in the future; windows
are returned in increasing interval order. -/
def InmemSink.Data (s : InmemSink) (t : ℕ) : List IntervalMetrics :=
  let i := s.currentIndex t
  sortOn (fun a b => decide (a.Interval ≤ b.Interval))
    (((List.range s.n).filterMap s.slots).filter
      (fun w => decide (w.Interval ≤ i ∧ i < w.Interval + s.n)))

/-- Modelled from the spec: `DisplayMetrics` at instant `t` summarises
the current (possibly partial) interval's window. -/
def InmemSink.DisplayMetrics (s : InmemSink) (t : ℕ) : MetricsSummary :=
  summarize s.intervalDuration (s.currentWindow t)

/-- One observed tick of the streaming loop: whether the context was
found cancelled at this tick, the sink state and instant the tick's
snapshot would be taken at, and whether the encoder accepted the write. -/
structure StreamTick where
  ctxCanceled : Bool
  sinkState : InmemSink
  now : ℕ
  encodeOk : Bool

/-- Modelled from the spec: `Stream(ctx, encoder)`: once per
`intervalDuration/2` tick, first check cancellation (return immediately,
emitting nothing further, when cancelled); otherwise re-snapshot and
feed the encoder, and return when the encoder reports a write failure.
The result is the sequence of summaries handed to the encoder. -/
def Stream : List StreamTick → List MetricsSummary
  | [] => []
  | tick :: rest =>
      if tick.ctxCanceled then []
      else
        let out := tick.sinkState.DisplayMetrics tick.now
        if tick.encodeOk then out :: Stream rest else [out]

/-- The instant of the `k`-th tick of the stream loop started at `t0`:
ticks fire every `intervalDuration/2`. -/
def tickInstant (s : InmemSink) (t0 k : ℕ) : ℕ :=
  t0 + (k + 1) * (s.intervalDuration / 2)

/-- A sink composed by `FanoutSink`, from `metrics.go`: a sink either
implements the optional `ShutdownSink` interface or it does not; `id`
identifies the sink for the call trace. -/
inductive FSink where
  | plain (id : ℕ)
  | shutdownable (id : ℕ)
deriving DecidableEq, Repr

/-- `FanoutSink` from `metrics.go`: an ordered slice of sinks. -/
structure FanoutSink where
  Sinks : List FSink
deriving DecidableEq, Repr

/-- `FanoutSink.Shutdown` from `metrics.go`: iterate over the slice in
order; on each sink that type-asserts to `ShutdownSink`, call its
`Shutdown`. The embedding returns the trace of `Shutdown` calls made. -/
def FanoutSink.ShutdownTrace (fh : FanoutSink) : List ℕ :=
  fh.Sinks.foldl
    (fun acc s => match s with
      | .shutdownable i => acc ++ [i]
      | .plain _ => acc) []

/-- The `Shutdown` call a single sink would receive, if any. -/
def FSink.shutdownCall : FSink → Option ℕ
  | .shutdownable i => some i
  | .plain _ => none

/-- The timer handle of `memoized.go`: the `drop` flag set when the
metric is filtered out, and the configured granularity in nanoseconds. -/
structure TimerHandle where
  drop : Bool
  granularity : ℕ

/-- `timer.MeasureSince` from `memoized.go`: when not dropped, emit
exactly one value `float64(elapsed.Nanoseconds()) / float64(granularity)`
where `elapsed = now - start`; when dropped, emit nothing. Instants are
signed nanosecond counts; `none` models the absence of any emission. -/
def TimerHandle.MeasureSince (t : TimerHandle) (now start : ℤ) : Option ℚ :=
  if t.drop then none
  else some (((now - start : ℤ) : ℚ) / (t.granularity : ℚ))

/-- `DefaultConfig` from `start.go` sets `TimerGranularity` to
`time.Millisecond`, i.e. `10^6` nanoseconds. -/
def defaultTimerGranularity : ℕ := 1000000

/-- The sink state of the end-to-end counter scenario: counter values 20
and 22 with no labels and 20 and 40 with label `a=b`, emitted through
`BuildMetricEmitter` inside the first 10ms interval of a sink with 10ms
interval and 50ms retention. -/
def endToEndSink : InmemSink :=
  let e := BuildMetricEmitter .Counter ["foo", "bar"] []
  let el := BuildMetricEmitter .Counter ["foo", "bar"] [{ Name := "a", Value := "b" }]
  el (el (e (e (mkInmemSink 10000000 50000000) 20 0) 22 0) 20 0) 40 0

/-- C1: after emitting counter values 20 and 22 with no labels, and 20
and 40 with label `a=b`, through `BuildMetricEmitter(Counter,
["foo","bar"], ...)` into one 10ms interval of an `InmemSink`, the
snapshot contains exactly two independent counter rows: hash `"foo.bar"`
with count 2, min 20, max 22, sum 42, sumSquared 884, rate 4200, mean 21
and standard deviation `√2`, and hash `"foo.bar;a=b"` with count 2, min
20, max 40, sum 60, sumSquared 2000, rate 6000, mean 30 and standard
deviation `√200`, where `rate = sum / intervalDuration.Seconds()`; the
decimals 1.4142135623730951 and 14.142135623730951 given by the
specification are these square roots up to the precision of `float64`. -/
theorem endToEnd_counter_snapshot :
    endToEndSink.DisplayMetrics 0 =
      { Timestamp := 0
        Gauges := []
        Counters :=
          [{ Name := "foo.bar", Hash := "foo.bar", Count := 2, Min := 20, Max := 22,
             Sum := 42, SumSq := 884, Rate := 4200, Mean := 21, StddevArg := 2,
             LastUpdated := 0, DisplayLabels := [] },
           { Name := "foo.bar", Hash := "foo.bar;a=b", Count := 2, Min := 20, Max := 40,
             Sum := 60, SumSq := 2000, Rate := 6000, Mean := 30, StddevArg := 200,
             LastUpdated := 0, DisplayLabels := [{ Name := "a", Value := "b" }] }]
        Samples := [] } ∧
    |Real.sqrt 2 - 1.4142135623730951| < 1e-15 ∧
    |Real.sqrt 200 - 14.142135623730951| < 1e-14 := by
  refine ⟨?_, ?_, ?_⟩
  · have hk : flattenKey ["foo", "bar"] = "foo.bar" := rfl
    have hh : metricHash ["foo", "bar"] [{ Name := "a", Value := "b" }] = "foo.bar;a=b" := rfl
    have hh0 : metricHash ["foo", "bar"] [] = "foo.bar" := rfl
    have hne : ("foo.bar" : String) ≠ "foo.bar;a=b" := by decide
    norm_num [endToEndSink, BuildMetricEmitter, hk, hh, hh0, hne, mkInmemSink,
      InmemSink.write, InmemSink.currentWindow, InmemSink.currentIndex,
      InmemSink.DisplayMetrics, summarize, emitToWindow, upsertSample, updateAssoc,
      sortOn, insertSorted, toDisplay, AggregateSample.Ingest, AggregateSample.empty,
      emptyWindow, displayLE, gaugeLE]
    decide
  · have h1 : Real.sqrt 2 < 1.4142135623730951 :=
      (Real.sqrt_lt' (by norm_num)).2 (by norm_num)
    have h2 : (1.4142135623730951 - 1e-15 : ℝ) < Real.sqrt 2 := by
      rw [Real.lt_sqrt (by norm_num)]
      norm_num
    rw [abs_sub_lt_iff]
    constructor <;> linarith
  · have h1 : Real.sqrt 200 < 14.142135623730951 :=
      (Real.sqrt_lt' (by norm_num)).2 (by norm_num)
    have h2 : (14.142135623730951 - 1e-14 : ℝ) < Real.sqrt 200 := by
      rw [Real.lt_sqrt (by norm_num)]
      norm_num
    rw [abs_sub_lt_iff]
    constructor <;> linarith

/-- Fold a sequence of (value, instant) observations into an accumulator,
in order. -/
def ingestFold (a : AggregateSample) (l : List (ℚ × ℕ)) : AggregateSample :=
  l.foldl (fun acc p => acc.Ingest p.1 p.2) a

lemma stats_ingest_congr {a b : AggregateSample} (h : a.stats = b.stats) (v : ℚ) (t s : ℕ) :
    (a.Ingest v t).stats = (b.Ingest v s).stats := by
  obtain ⟨h1, h2, h3, h4, h5⟩ :
      a.Count = b.Count ∧ a.Sum = b.Sum ∧ a.SumSq = b.SumSq ∧ a.Min = b.Min ∧ a.Max = b.Max := by
    simpa [AggregateSample.stats, Prod.ext_iff] using h
  simp [AggregateSample.Ingest, AggregateSample.stats, h1, h2, h3, h4, h5]

lemma ingestFold_stats_congr {a b : AggregateSample} (h : a.stats = b.stats)
    (l : List (ℚ × ℕ)) : (ingestFold a l).stats = (ingestFold b l).stats := by
  induction l generalizing a b with
  | nil => simpa [ingestFold] using h
  | cons p rest ih =>
      simp only [ingestFold, List.foldl_cons] at *
      exact ih (stats_ingest_congr h p.1 p.2 p.2)

lemma ingest_swap (a : AggregateSample) (x y : ℚ) (tx ty : ℕ) :
    ((a.Ingest x tx).Ingest y ty).stats = ((a.Ingest y ty).Ingest x tx).stats := by
  have hmax : max (max a.Max x) y = max (max a.Max y) x := by
    rw [max_assoc, max_comm x y, ← max_assoc]
  have hmin : min (min a.Min x) y = min (min a.Min y) x := min_right_comm a.Min x y
  rcases Nat.eq_zero_or_pos a.Count with h | h
  · simp [AggregateSample.Ingest, AggregateSample.stats, h, min_comm, max_comm,
      add_right_comm]
  · simp [AggregateSample.Ingest, AggregateSample.stats, Nat.pos_iff_ne_zero.mp h,
      hmin, hmax, add_right_comm]

/-- C2 (amended): for every finite sequence of observations folded into
one `AggregateSample` within a single interval, the resulting
statistical aggregate (count, sum, sumSquared, min, max) is
order-insensitive under exact (unrounded) accumulation of `sum` and
`sumSquared`: any permutation of the observation sequence yields the
same aggregate. Under the program's `float64` rounding this holds only
up to rounding: `aggregate_order_sensitive_float64` below exhibits a
permutation that changes the accumulated sum. -/
theorem aggregate_order_insensitive (l₁ l₂ : List (ℚ × ℕ)) (h : l₁.Perm l₂)
    (a : AggregateSample) : (ingestFold a l₁).stats = (ingestFold a l₂).stats := by
  induction h generalizing a with
  | nil => rfl
  | cons x _ ih =>
      simp only [ingestFold, List.foldl_cons]
      exact ih _
  | swap x y l =>
      simp only [ingestFold, List.foldl_cons]
      exact ingestFold_stats_congr (ingest_swap a y.1 x.1 y.2 x.2) l
  | trans _ _ ih1 ih2 => exact (ih1 a).trans (ih2 a)

/-- Witness for C2: ingesting [20, 22] in either order yields the same
count, sum, sum of squares, min and max. -/
theorem aggregate_order_insensitive_witness :
    (ingestFold AggregateSample.empty [((20 : ℚ), 0), ((22 : ℚ), 0)]).stats =
      (ingestFold AggregateSample.empty [((22 : ℚ), 0), ((20 : ℚ), 0)]).stats :=
  aggregate_order_insensitive _ _ (List.Perm.swap ((22 : ℚ), 0) ((20 : ℚ), 0) [])
    AggregateSample.empty

lemma lookup_updateAssoc {α : Type} (l : List (String × α)) (k : String) (f : Option α → α) :
    lookupAssoc (updateAssoc l k f) k = some (f (lookupAssoc l k)) := by
  induction l with
  | nil => simp [updateAssoc, lookupAssoc]
  | cons p rest ih =>
      obtain ⟨k', v⟩ := p
      by_cases h : k' = k <;> simp [updateAssoc, lookupAssoc, h, ih]

/-- The sink state after writing 42 then 23 to the same gauge within the
first interval of a sink with 10ms interval and 50ms retention. -/
def gaugeOverwriteSink : InmemSink :=
  let e := BuildMetricEmitter .Gauge ["foo", "bar"] []
  e (e (mkInmemSink 10000000 50000000) 42 0) 23 0

/-- C3: gauge writes to one hash within one window are last-write-wins:
for every sequence of gauge writes to a hash within one interval, the
stored value for that hash is the value of the last write; in particular
writing 42 then 23 to the same gauge within one interval of an
`InmemSink` snapshots to 23, never an accumulation of both. -/
theorem gauge_last_write_wins :
    (∀ (name hash : String) (labels : List Label) (w : IntervalMetrics)
        (vs : List ℚ) (v : ℚ) (t : ℕ),
      lookupAssoc
          (((vs ++ [v]).foldl (fun w u => emitToWindow .Gauge name hash labels w u t) w).Gauges)
          hash =
        some { Name := name, Hash := hash, Value := v, DisplayLabels := labels }) ∧
    (gaugeOverwriteSink.DisplayMetrics 0).Gauges =
      [{ Name := "foo.bar", Hash := "foo.bar", Value := 23, DisplayLabels := [] }] := by
  constructor
  · intro name hash labels w vs v t
    rw [List.foldl_append, List.foldl_cons, List.foldl_nil]
    simp [emitToWindow, lookup_updateAssoc]
  · have hk : flattenKey ["foo", "bar"] = "foo.bar" := rfl
    have hh0 : metricHash ["foo", "bar"] [] = "foo.bar" := rfl
    norm_num [gaugeOverwriteSink, BuildMetricEmitter, hk, hh0, mkInmemSink,
      InmemSink.write, InmemSink.currentWindow, InmemSink.currentIndex,
      InmemSink.DisplayMetrics, summarize, emitToWindow, updateAssoc,
      sortOn, insertSorted, emptyWindow, gaugeLE]

/-- The character sequence of one label's `name=value` token inside the
canonical hash. -/
def labelToken (l : Label) : List Char :=
  l.Name.data ++ '=' :: l.Value.data

/-- The character sequence of the dotted key. -/
def dotJoinData : List String → List Char
  | [] => []
  | k :: rest => k.data ++ (rest.map (fun a => '.' :: a.data)).flatten

lemma intercalate_go_data (as : List String) (acc : String) :
    (String.intercalate.go acc "." as).data =
      acc.data ++ (as.map (fun a => '.' :: a.data)).flatten := by
  induction as generalizing acc with
  | nil => simp [String.intercalate.go]
  | cons a as ih =>
      have hdot : ("." : String).data = ['.'] := rfl
      rw [String.intercalate.go, ih]
      simp [String.data_append, hdot]

lemma flattenKey_data (keys : List String) :
    (flattenKey keys).data = dotJoinData keys := by
  cases keys with
  | nil => rfl
  | cons k rest =>
      rw [flattenKey, String.intercalate, intercalate_go_data, dotJoinData]

lemma metricHash_data (keys : List String) (labels : List Label) :
    (metricHash keys labels).data =
      dotJoinData keys ++ (labels.map (fun l => ';' :: labelToken l)).flatten := by
  suffices h : ∀ (ls : List Label) (s : String),
      (ls.foldl (fun h l => h ++ ";" ++ l.Name ++ "=" ++ l.Value) s).data =
        s.data ++ (ls.map (fun l => ';' :: labelToken l)).flatten by
    rw [metricHash, h, flattenKey_data]
  intro ls
  induction ls with
  | nil => simp
  | cons l rest ih =>
      intro s
      have hsemi : (";" : String).data = [';'] := rfl
      have heq : ("=" : String).data = ['='] := rfl
      rw [List.foldl_cons, ih]
      simp [String.data_append, hsemi, heq, labelToken]

lemma intercalate_cons {α : Type} (x : α) (a : List α) (ts : List (List α)) :
    [x].intercalate (a :: ts) = a ++ (ts.map (fun t => x :: t)).flatten := by
  induction ts generalizing a with
  | nil => simp [List.intercalate]
  | cons b ts ih =>
      have h1 : [x].intercalate (a :: b :: ts) =
          (List.intersperse [x] (a :: b :: ts)).flatten := rfl
      have h2 : (List.intersperse [x] (b :: ts)).flatten = [x].intercalate (b :: ts) := rfl
      rw [h1, List.intersperse_cons_cons, List.flatten_cons, List.flatten_cons, h2, ih b]
      simp

lemma hashData_intercalate (keys : List String) (labels : List Label) :
    (metricHash keys labels).data =
      [';'].intercalate (dotJoinData keys :: labels.map labelToken) := by
  rw [metricHash_data, intercalate_cons]
  simp [List.map_map, Function.comp_def]

lemma dotJoinData_intercalate (keys : List String) :
    dotJoinData keys = ['.'].intercalate (keys.map String.data) := by
  cases keys with
  | nil => rfl
  | cons k rest =>
      rw [dotJoinData, List.map_cons, intercalate_cons]
      simp [List.map_map, Function.comp_def]

lemma not_mem_intercalate {α : Type} {c x : α} {ls : List (List α)} (hc : c ≠ x)
    (h : ∀ l ∈ ls, c ∉ l) : c ∉ [x].intercalate ls := by
  cases ls with
  | nil => simp [List.intercalate]
  | cons a ts =>
      rw [intercalate_cons]
      intro hmem
      rcases List.mem_append.1 hmem with hm | hm
      · exact h a (by simp) hm
      · rcases List.mem_flatten.1 hm with ⟨t, ht, hct⟩
        rcases List.mem_map.1 ht with ⟨u, hu, rfl⟩
        rcases List.mem_cons.1 hct with h1 | hcu
        · exact hc h1
        · exact h u (List.mem_cons_of_mem _ hu) hcu

lemma not_mem_labelToken {l : Label} (hn : ';' ∉ l.Name.data) (hv : ';' ∉ l.Value.data) :
    ';' ∉ labelToken l := by
  intro h
  rcases List.mem_append.1 h with h1 | h1
  · exact hn h1
  · rcases List.mem_cons.1 h1 with h2 | h2
    · exact absurd h2 (by decide)
    · exact hv h2

lemma append_sep_inj {α : Type} {x : α} :
    ∀ {a c : List α} {b d : List α}, x ∉ a → x ∉ c →
      a ++ x :: b = c ++ x :: d → a = c ∧ b = d := by
  intro a
  induction a with
  | nil =>
      intro c b d _ hc h
      cases c with
      | nil => simpa using h
      | cons f c' =>
          rw [List.nil_append] at h
          obtain ⟨h1, -⟩ := List.cons.injEq .. ▸ h
          exact absurd (h1 ▸ List.mem_cons_self f c') hc
  | cons e a' ih =>
      intro c b d ha hc h
      cases c with
      | nil =>
          rw [List.nil_append] at h
          obtain ⟨h1, -⟩ := List.cons.injEq .. ▸ h.symm
          exact absurd (h1 ▸ List.mem_cons_self e a') ha
      | cons f c' =>
          obtain ⟨h1, h2⟩ := List.cons.injEq .. ▸ h
          obtain ⟨h3, h4⟩ := ih (fun hm => ha (List.mem_cons_of_mem _ hm))
            (fun hm => hc (List.mem_cons_of_mem _ hm)) h2
          exact ⟨by rw [h1, h3], h4⟩

lemma labelToken_inj {l₁ l₂ : Label} (h1 : '=' ∉ l₁.Name.data) (h2 : '=' ∉ l₂.Name.data)
    (h : labelToken l₁ = labelToken l₂) : l₁ = l₂ := by
  obtain ⟨hn, hv⟩ := append_sep_inj h1 h2 h
  obtain ⟨n₁, v₁⟩ := l₁
  obtain ⟨n₂, v₂⟩ := l₂
  simp only [Label.mk.injEq]
  exact ⟨String.ext hn, String.ext hv⟩

lemma map_labelToken_inj :
    ∀ {l₁ l₂ : List Label}, (∀ l ∈ l₁, '=' ∉ l.Name.data) → (∀ l ∈ l₂, '=' ∉ l.Name.data) →
      l₁.map labelToken = l₂.map labelToken → l₁ = l₂ := by
  intro l₁
  induction l₁ with
  | nil =>
      intro l₂ _ _ h
      cases l₂ with
      | nil => rfl
      | cons b l₂' => simp at h
  | cons a l₁' ih =>
      intro l₂ h1 h2 h
      cases l₂ with
      | nil => simp at h
      | cons b l₂' =>
          simp only [List.map_cons, List.cons.injEq] at h
          have hab := labelToken_inj (h1 a (by simp)) (h2 b (by simp)) h.1
          have htl := ih (fun l hm => h1 l (List.mem_cons_of_mem _ hm))
            (fun l hm => h2 l (List.mem_cons_of_mem _ hm)) h.2
          rw [hab, htl]

/-- The separator-freeness proviso under which the canonical hash is
collision-free: a nonempty key whose parts contain neither `.` nor `;`,
label names containing neither `;` nor `=`, and label values containing
no `;`. -/
def HashSafe (keys : List String) (labels : List Label) : Prop :=
  keys ≠ [] ∧
  (∀ k ∈ keys, '.' ∉ k.data ∧ ';' ∉ k.data) ∧
  (∀ l ∈ labels, ';' ∉ l.Name.data ∧ '=' ∉ l.Name.data ∧ ';' ∉ l.Value.data)

instance (keys : List String) (labels : List Label) : Decidable (HashSafe keys labels) := by
  unfold HashSafe
  infer_instance

lemma hash_chunks_semifree {keys : List String} {labels : List Label}
    (hs : HashSafe keys labels) :
    ∀ l ∈ dotJoinData keys :: labels.map labelToken, ';' ∉ l := by
  obtain ⟨-, hkeys, hlabels⟩ := hs
  intro l hl
  rcases List.mem_cons.1 hl with rfl | hm
  · rw [dotJoinData_intercalate]
    refine not_mem_intercalate (by decide) ?_
    intro u hu
    rcases List.mem_map.1 hu with ⟨k, hk, rfl⟩
    exact (hkeys k hk).2
  · rcases List.mem_map.1 hm with ⟨lab, hlab, rfl⟩
    exact not_mem_labelToken (hlabels lab hlab).1 (hlabels lab hlab).2.2

/-- C4 (amended): identical metric+label combinations always map to the
same hash (hashing is a function of the combination); the two test
combinations `(["foo","bar"], [])` and `(["foo","bar"], [{a,b}])` map to
the distinct hashes `"foo.bar"` and `"foo.bar;a=b"`; and distinct
combinations map to distinct hashes provided each combination is
separator-free (`HashSafe`): nonempty key with `.`- and `;`-free parts,
`;`- and `=`-free label names, `;`-free label values. -/
theorem metricHash_label_separation :
    metricHash ["foo", "bar"] [] = "foo.bar" ∧
    metricHash ["foo", "bar"] [{ Name := "a", Value := "b" }] = "foo.bar;a=b" ∧
    ("foo.bar" : String) ≠ "foo.bar;a=b" ∧
    ∀ keys₁ labels₁ keys₂ labels₂, HashSafe keys₁ labels₁ → HashSafe keys₂ labels₂ →
      metricHash keys₁ labels₁ = metricHash keys₂ labels₂ →
      keys₁ = keys₂ ∧ labels₁ = labels₂ := by
  refine ⟨rfl, rfl, by decide, ?_⟩
  intro keys₁ labels₁ keys₂ labels₂ hs₁ hs₂ h
  have hd := congrArg String.data h
  rw [hashData_intercalate, hashData_intercalate] at hd
  have hsplit :
      dotJoinData keys₁ :: labels₁.map labelToken =
        dotJoinData keys₂ :: labels₂.map labelToken := by
    have e₁ := List.splitOn_intercalate _ ';' (hash_chunks_semifree hs₁) (List.cons_ne_nil _ _)
    have e₂ := List.splitOn_intercalate _ ';' (hash_chunks_semifree hs₂) (List.cons_ne_nil _ _)
    rw [← e₁, ← e₂, hd]
  obtain ⟨hhead, htail⟩ := List.cons.injEq .. ▸ hsplit
  constructor
  · rw [dotJoinData_intercalate, dotJoinData_intercalate] at hhead
    have hfree : ∀ (keys : List String) (labels : List Label), HashSafe keys labels →
        ∀ l ∈ keys.map String.data, '.' ∉ l := by
      intro keys labels hs l hl
      rcases List.mem_map.1 hl with ⟨k, hk, rfl⟩
      exact (hs.2.1 k hk).1
    have hne : ∀ (keys : List String) (labels : List Label), HashSafe keys labels →
        keys.map String.data ≠ [] := by
      intro keys labels hs
      simpa using hs.1
    have hmaps : keys₁.map String.data = keys₂.map String.data := by
      have e₁ := List.splitOn_intercalate _ '.' (hfree _ _ hs₁) (hne _ _ hs₁)
      have e₂ := List.splitOn_intercalate _ '.' (hfree _ _ hs₂) (hne _ _ hs₂)
      rw [← e₁, ← e₂, hhead]
    exact List.map_injective_iff.2 (fun a b hab => String.ext hab) hmaps
  · exact map_labelToken_inj (fun l hm => (hs₁.2.2 l hm).2.1)
      (fun l hm => (hs₂.2.2 l hm).2.1) htail

/-- Counterexample for C4 as stated: the distinct combinations
`(["foo.bar"], [])` and `(["foo","bar"], [])` collide on the hash
`"foo.bar"`, so distinct metric+label combinations do not always map to
distinct hashes. -/
theorem metricHash_collision :
    metricHash ["foo.bar"] [] = metricHash ["foo", "bar"] [] ∧
      (["foo.bar"] : List String) ≠ ["foo", "bar"] :=
  ⟨rfl, by decide⟩

/-- Witness for C4 (amended): the separator-freeness proviso holds at a
concrete pair of combinations, and the injectivity conclusion follows
there. -/
theorem metricHash_label_separation_witness :
    (["foo", "bar"] : List String) = ["foo", "bar"] ∧
      ([{ Name := "a", Value := "b" }] : List Label) = [{ Name := "a", Value := "b" }] :=
  metricHash_label_separation.2.2.2 ["foo", "bar"] [{ Name := "a", Value := "b" }]
    ["foo", "bar"] [{ Name := "a", Value := "b" }] (by decide) (by decide) rfl

/-- One observation as issued through an emitter: the emitter's builder
arguments together with the observed value and instant. -/
structure WriteOp where
  mType : MetricType
  keys : List String
  labels : List Label
  value : ℚ
  time : ℕ
deriving DecidableEq

/-- Apply one observation to the sink through its emitter. -/
def applyOp (s : InmemSink) (op : WriteOp) : InmemSink :=
  BuildMetricEmitter op.mType op.keys op.labels s op.value op.time

/-- Apply a sequence of observations in order. -/
def applyOps (s : InmemSink) (ops : List WriteOp) : InmemSink :=
  ops.foldl applyOp s

/-- Fold one observation directly into a window (what the emitter does to
the current window). -/
def windowStep (w : IntervalMetrics) (op : WriteOp) : IntervalMetrics :=
  emitToWindow op.mType (flattenKey op.keys) (metricHash op.keys op.labels) op.labels
    w op.value op.time

/-- The single window obtained by folding all observations into a fresh
window for interval 0. -/
def windowFold (ops : List WriteOp) : IntervalMetrics :=
  ops.foldl windowStep (emptyWindow 0)

/-- A sink whose ring holds at most the one window stored in slot 0. -/
def singleSlotSink (interval retention : ℕ) (ow : Option IntervalMetrics) : InmemSink :=
  { intervalDuration := interval
    retentionDuration := retention
    n := (retention + interval - 1) / interval
    slots := fun j => if j = 0 then ow else none }

lemma emitToWindow_interval (mt : MetricType) (name hash : String) (labels : List Label)
    (w : IntervalMetrics) (v : ℚ) (t : ℕ) :
    (emitToWindow mt name hash labels w v t).Interval = w.Interval := by
  cases mt <;> rfl

lemma windowStep_interval (w : IntervalMetrics) (op : WriteOp) :
    (windowStep w op).Interval = w.Interval := emitToWindow_interval ..

lemma mkInmemSink_eq_singleSlot (interval retention : ℕ) :
    mkInmemSink interval retention = singleSlotSink interval retention none := by
  unfold singleSlotSink mkInmemSink
  congr 1
  funext j
  split <;> rfl

lemma applyOp_first {interval : ℕ} (retention : ℕ) (ow : Option IntervalMetrics)
    (how : ∀ w, ow = some w → w.Interval = 0) (op : WriteOp) (ht : op.time < interval) :
    applyOp (singleSlotSink interval retention ow) op =
      singleSlotSink interval retention (some (windowStep (ow.getD (emptyWindow 0)) op)) := by
  have hi : op.time / interval = 0 := Nat.div_eq_of_lt ht
  have hw : (singleSlotSink interval retention ow).currentWindow op.time =
      ow.getD (emptyWindow 0) := by
    unfold InmemSink.currentWindow InmemSink.currentIndex singleSlotSink
    cases ow with
    | none => simp [hi]
    | some w => simp [hi, how w rfl]
  unfold applyOp BuildMetricEmitter InmemSink.write
  rw [hw]
  unfold InmemSink.currentIndex windowStep
  simp only [singleSlotSink]
  congr 1
  funext j
  by_cases hj : j = 0 <;> simp [hj, hi]

lemma applyOps_single {interval : ℕ} (retention : ℕ) :
    ∀ (ops : List WriteOp) (w : IntervalMetrics), w.Interval = 0 →
      (∀ op ∈ ops, op.time < interval) →
      applyOps (singleSlotSink interval retention (some w)) ops =
        singleSlotSink interval retention (some (ops.foldl windowStep w)) := by
  intro ops
  induction ops with
  | nil => intro w _ _; rfl
  | cons op rest ih =>
      intro w hw hts
      have h1 : applyOp (singleSlotSink interval retention (some w)) op =
          singleSlotSink interval retention (some (windowStep w op)) := by
        have := applyOp_first retention (some w) (fun u hu => by cases hu; exact hw) op
          (hts op (by simp))
        simpa using this
      calc applyOps (singleSlotSink interval retention (some w)) (op :: rest)
          = applyOps (applyOp (singleSlotSink interval retention (some w)) op) rest := rfl
        _ = applyOps (singleSlotSink interval retention (some (windowStep w op))) rest := by
            rw [h1]
        _ = singleSlotSink interval retention (some ((op :: rest).foldl windowStep w)) := by
            rw [ih (windowStep w op) (by rw [windowStep_interval]; exact hw)
              (fun u hu => hts u (List.mem_cons_of_mem _ hu))]
            rfl

lemma applyOps_first_interval {interval : ℕ} (retention : ℕ) (ops : List WriteOp)
    (hne : ops ≠ []) (hts : ∀ op ∈ ops, op.time < interval) :
    applyOps (mkInmemSink interval retention) ops =
      singleSlotSink interval retention (some (windowFold ops)) := by
  cases ops with
  | nil => exact absurd rfl hne
  | cons op rest =>
      rw [mkInmemSink_eq_singleSlot]
      have h1 : applyOp (singleSlotSink interval retention none) op =
          singleSlotSink interval retention (some (windowStep (emptyWindow 0) op)) :=
        applyOp_first retention none (fun u hu => by cases hu) op (hts op (by simp))
      calc applyOps (singleSlotSink interval retention none) (op :: rest)
          = applyOps (applyOp (singleSlotSink interval retention none) op) rest := rfl
        _ = applyOps (singleSlotSink interval retention
              (some (windowStep (emptyWindow 0) op))) rest := by rw [h1]
        _ = singleSlotSink interval retention (some (windowFold (op :: rest))) := by
            rw [applyOps_single retention rest (windowStep (emptyWindow 0) op)
              (by rw [windowStep_interval]; rfl)
              (fun u hu => hts u (List.mem_cons_of_mem _ hu))]
            rfl

lemma range_filterMap_singleSlot {n : ℕ} (hn : 0 < n) (W : IntervalMetrics) :
    (List.range n).filterMap (fun j => if j = 0 then some W else none) = [W] := by
  obtain ⟨m, rfl⟩ := Nat.exists_eq_succ_of_ne_zero hn.ne'
  rw [List.range_succ_eq_map]
  rw [List.filterMap_cons]
  simp only [if_pos rfl]
  have h2 : (List.filterMap (fun j => if j = 0 then some W else none)
      (List.map Nat.succ (List.range m))) = [] := by
    rw [List.filterMap_eq_nil_iff.2]
    intro a ha
    rcases List.mem_map.1 ha with ⟨b, _, rfl⟩
    simp
  simp [h2]

lemma singleSlot_n (interval retention : ℕ) (ow : Option IntervalMetrics) :
    (singleSlotSink interval retention ow).n = (retention + interval - 1) / interval := rfl

lemma data_singleSlot {interval retention : ℕ}
    (hn : 0 < (retention + interval - 1) / interval) (W : IntervalMetrics)
    (hW : W.Interval = 0) (tr : ℕ) (htr : tr < interval) :
    (singleSlotSink interval retention (some W)).Data tr = [W] := by
  unfold InmemSink.Data InmemSink.currentIndex singleSlotSink
  simp only [Nat.div_eq_of_lt htr]
  rw [range_filterMap_singleSlot hn W]
  simp [sortOn, insertSorted, hW, hn]

lemma display_singleSlot {interval retention : ℕ} (W : IntervalMetrics)
    (hW : W.Interval = 0) (tr : ℕ) (htr : tr < interval) :
    (singleSlotSink interval retention (some W)).DisplayMetrics tr =
      summarize interval W := by
  unfold InmemSink.DisplayMetrics InmemSink.currentWindow InmemSink.currentIndex
  unfold singleSlotSink
  simp [Nat.div_eq_of_lt htr, hW]

/-- C5: the summary API returns the current, possibly partial, interval:
for every nonempty sequence of writes made while the first interval is
still open, `Data` taken within that interval returns exactly the one
(current, partial) window holding the fold of all those writes, and
`DisplayMetrics` summarises exactly that window. -/
theorem summary_returns_current_partial_interval (interval retention : ℕ)
    (hi : 0 < interval) (hr : 0 < retention) (ops : List WriteOp) (hne : ops ≠ [])
    (hts : ∀ op ∈ ops, op.time < interval) (tr : ℕ) (htr : tr < interval) :
    (applyOps (mkInmemSink interval retention) ops).Data tr = [windowFold ops] ∧
    (applyOps (mkInmemSink interval retention) ops).DisplayMetrics tr =
      summarize interval (windowFold ops) := by
  have hn : 0 < (retention + interval - 1) / interval := by
    have h := (Nat.one_le_div_iff hi).2 (show interval ≤ retention + interval - 1 by omega)
    omega
  rw [applyOps_first_interval retention ops hne hts]
  have hW : (windowFold ops).Interval = 0 := by
    unfold windowFold
    have h : ∀ (l : List WriteOp) (w : IntervalMetrics),
        (l.foldl windowStep w).Interval = w.Interval := by
      intro l
      induction l with
      | nil => intro w; rfl
      | cons a l ih => intro w; rw [List.foldl_cons, ih, windowStep_interval]
    rw [h]
    rfl
  exact ⟨data_singleSlot hn _ hW tr htr, display_singleSlot _ hW tr htr⟩

/-- Witness for C5: a single gauge write at t=0 read back at t=0 within
the first 10ms interval of a 10ms/50ms sink. -/
theorem summary_returns_current_partial_interval_witness :
    (applyOps (mkInmemSink 10000000 50000000)
        [⟨.Gauge, ["foo", "bar"], [], 42, 0⟩]).Data 0 =
      [windowFold [⟨.Gauge, ["foo", "bar"], [], 42, 0⟩]] ∧
    (applyOps (mkInmemSink 10000000 50000000)
        [⟨.Gauge, ["foo", "bar"], [], 42, 0⟩]).DisplayMetrics 0 =
      summarize 10000000 (windowFold [⟨.Gauge, ["foo", "bar"], [], 42, 0⟩]) :=
  summary_returns_current_partial_interval 10000000 50000000 (by norm_num) (by norm_num)
    [⟨.Gauge, ["foo", "bar"], [], 42, 0⟩] (by decide)
    (by intro op hop; rcases List.mem_singleton.1 hop with rfl; norm_num) 0 (by norm_num)

/-- C6: with interval 10ms and retention 50ms, a gauge value written at
t=0 is not visible in the current-window snapshot taken at t=60ms (the
current window is then interval 6, whose ring slot fails the identity
check and is treated as fresh), and that stale write has also aged out of
`Data`; in general the window used for instant `t` always carries the
logical interval identity of `t`, and a slot whose stored identity
differs is replaced by a fresh empty window before any read or write. -/
theorem window_rotation_hides_stale_write :
    ((BuildMetricEmitter .Gauge ["foo", "bar"] []
        (mkInmemSink 10000000 50000000) 42 0).DisplayMetrics 60000000).Gauges = [] ∧
    (BuildMetricEmitter .Gauge ["foo", "bar"] []
        (mkInmemSink 10000000 50000000) 42 0).Data 60000000 = [] ∧
    ∀ (s : InmemSink) (t : ℕ),
      (s.currentWindow t).Interval = s.currentIndex t ∧
      ∀ w, s.slots (s.currentIndex t % s.n) = some w → w.Interval ≠ s.currentIndex t →
        s.currentWindow t = emptyWindow (s.currentIndex t) := by
  refine ⟨?_, ?_, ?_⟩
  · norm_num [BuildMetricEmitter, mkInmemSink, InmemSink.write, InmemSink.currentWindow,
      InmemSink.currentIndex, InmemSink.DisplayMetrics, summarize, emitToWindow,
      updateAssoc, sortOn, insertSorted, emptyWindow]
  · decide
  · intro s t
    constructor
    · unfold InmemSink.currentWindow
      cases h : s.slots (s.currentIndex t % s.n) with
      | none => simp [h, emptyWindow]
      | some w =>
          by_cases hw : w.Interval = s.currentIndex t <;> simp [h, hw, emptyWindow]
    · intro w hw hne
      unfold InmemSink.currentWindow
      simp [hw, hne]

/-- Witness for C6: a sink holding only a window for interval 1 (written
at t=10ms) presents a fresh empty window for interval 6 at t=60ms. -/
theorem window_rotation_hides_stale_write_witness :
    (BuildMetricEmitter .Gauge ["foo", "bar"] []
        (mkInmemSink 10000000 50000000) 42 10000000).currentWindow 60000000 =
      emptyWindow 6 :=
  ((window_rotation_hides_stale_write.2.2
      (BuildMetricEmitter .Gauge ["foo", "bar"] [] (mkInmemSink 10000000 50000000)
        42 10000000) 60000000).2
    (emitToWindow .Gauge (flattenKey ["foo", "bar"]) (metricHash ["foo", "bar"] []) []
      (emptyWindow 1) 42 10000000)
    (by decide) (by decide))

/-- C7: construction fails fast on malformed configuration: a zero or
negative interval or retention duration is rejected (no sink is
returned), while positive durations produce a sink whose ring has a
positive slot count `ceil(retention/interval)`. -/
theorem NewInmemSink_fails_fast :
    (∀ interval retention : ℤ, interval ≤ 0 ∨ retention ≤ 0 →
      NewInmemSink interval retention = none) ∧
    (∀ interval retention : ℤ, 0 < interval → 0 < retention →
      NewInmemSink interval retention = some (mkInmemSink interval.toNat retention.toNat) ∧
      0 < (mkInmemSink interval.toNat retention.toNat).n) := by
  constructor
  · intro i r h
    unfold NewInmemSink
    rw [if_pos h]
  · intro i r hi hr
    constructor
    · unfold NewInmemSink
      rw [if_neg (by omega : ¬(i ≤ 0 ∨ r ≤ 0))]
    · show 0 < (r.toNat + i.toNat - 1) / i.toNat
      have h1 : 0 < i.toNat := by omega
      have h := (Nat.one_le_div_iff h1).2 (show i.toNat ≤ r.toNat + i.toNat - 1 by omega)
      omega

/-- Witness for C7: interval 0 is rejected; 10ms/50ms is accepted with a
positive slot count. -/
theorem NewInmemSink_fails_fast_witness :
    NewInmemSink 0 50000000 = none ∧
    (NewInmemSink 10000000 50000000 =
        some (mkInmemSink (10000000 : ℤ).toNat (50000000 : ℤ).toNat) ∧
      0 < (mkInmemSink (10000000 : ℤ).toNat (50000000 : ℤ).toNat).n) :=
  ⟨NewInmemSink_fails_fast.1 0 50000000 (Or.inl le_rfl),
    NewInmemSink_fails_fast.2 10000000 50000000 (by norm_num) (by norm_num)⟩

/-- C8: the streaming loop snapshots and feeds the encoder exactly once
per tick while the context is alive and the encoder accepts writes; it
returns at the first tick that observes cancellation, emitting nothing at
or after that tick (so it returns within one tick of cancellation and
never invokes the encoder again), and it returns right after the first
encoder write failure, whose tick still received one emission. -/
theorem stream_terminates_on_cancel_or_error :
    (∀ (pre post : List StreamTick) (tick : StreamTick),
      (∀ t ∈ pre, t.ctxCanceled = false ∧ t.encodeOk = true) →
      tick.ctxCanceled = true →
      Stream (pre ++ tick :: post) =
        pre.map (fun t => t.sinkState.DisplayMetrics t.now)) ∧
    (∀ (pre post : List StreamTick) (tick : StreamTick),
      (∀ t ∈ pre, t.ctxCanceled = false ∧ t.encodeOk = true) →
      tick.ctxCanceled = false → tick.encodeOk = false →
      Stream (pre ++ tick :: post) =
        (pre ++ [tick]).map (fun t => t.sinkState.DisplayMetrics t.now)) := by
  constructor
  · intro pre post tick hpre hc
    induction pre with
    | nil => simp [Stream, hc]
    | cons a rest ih =>
        have ha := hpre a (by simp)
        rw [List.cons_append]
        simp only [Stream, ha.1, ha.2, Bool.false_eq_true, if_false, if_true, List.map_cons]
        rw [ih (fun t ht => hpre t (List.mem_cons_of_mem _ ht))]
  · intro pre post tick hpre hc he
    induction pre with
    | nil => simp [Stream, hc, he]
    | cons a rest ih =>
        have ha := hpre a (by simp)
        rw [List.cons_append]
        simp only [Stream, ha.1, ha.2, Bool.false_eq_true, if_false, if_true, List.map_cons]
        rw [ih (fun t ht => hpre t (List.mem_cons_of_mem _ ht))]
        simp

/-- Witness for C8: with one live tick followed by a cancelled tick, the
stream emits exactly the first tick's snapshot and stops. -/
theorem stream_terminates_on_cancel_or_error_witness :
    Stream [⟨false, mkInmemSink 10000000 50000000, 0, true⟩,
        ⟨true, mkInmemSink 10000000 50000000, 5000000, true⟩] =
      [(mkInmemSink 10000000 50000000).DisplayMetrics 0] := by
  have h := stream_terminates_on_cancel_or_error.1
    [⟨false, mkInmemSink 10000000 50000000, 0, true⟩] []
    ⟨true, mkInmemSink 10000000 50000000, 5000000, true⟩
    (fun t ht => by rw [List.mem_singleton.1 ht]; exact ⟨rfl, rfl⟩) rfl
  simpa using h

lemma foldl_shutdown_append (l : List FSink) (acc : List ℕ) :
    l.foldl (fun acc s => match s with
        | .shutdownable i => acc ++ [i]
        | .plain _ => acc) acc = acc ++ l.filterMap FSink.shutdownCall := by
  induction l generalizing acc with
  | nil => simp
  | cons s rest ih =>
      cases s with
      | plain i => simp [List.filterMap_cons, FSink.shutdownCall, ih]
      | shutdownable i => simp [List.filterMap_cons, FSink.shutdownCall, ih]

/-- C9: `FanoutSink.Shutdown` calls `Shutdown` exactly once on every sink
in its `Sinks` slice that implements `ShutdownSink`, in slice order, and
calls nothing on sinks that do not implement it: the call trace is
exactly the in-order projection of the shutdownable sinks. -/
theorem fanout_shutdown_each_once (fh : FanoutSink) :
    fh.ShutdownTrace = fh.Sinks.filterMap FSink.shutdownCall := by
  unfold FanoutSink.ShutdownTrace
  simpa using foldl_shutdown_append fh.Sinks []

/-- C10: a non-dropped timer handle emits exactly one value, equal to the
elapsed time `now - start` in nanoseconds divided by the handle's
granularity; with the default `TimerGranularity` of one millisecond the
emitted value is the elapsed time in milliseconds. -/
theorem timer_measureSince_elapsed_over_granularity (t : TimerHandle) (now start : ℤ)
    (h : t.drop = false) :
    t.MeasureSince now start = some (((now - start : ℤ) : ℚ) / (t.granularity : ℚ)) ∧
    (t.granularity = defaultTimerGranularity →
      t.MeasureSince now start = some (((now - start : ℤ) : ℚ) / 1000000)) := by
  constructor
  · simp [TimerHandle.MeasureSince, h]
  · intro hg
    simp [TimerHandle.MeasureSince, h, hg, defaultTimerGranularity]

/-- Witness for C10: a live timer with the default millisecond
granularity measuring 3ms of elapsed time. -/
theorem timer_measureSince_elapsed_over_granularity_witness :
    (⟨false, 1000000⟩ : TimerHandle).MeasureSince 5000000 2000000 =
      some (((5000000 - 2000000 : ℤ) : ℚ) / ((1000000 : ℕ) : ℚ)) :=
  (timer_measureSince_elapsed_over_granularity ⟨false, 1000000⟩ 5000000 2000000 rfl).1

/-- Round-half-to-even of a rational to an integer: the rounding IEEE-754
binary64 arithmetic applies to the 53-bit significand. -/
def roundHalfEven (m : ℚ) : ℤ :=
  if m - ⌊m⌋ < 1/2 then ⌊m⌋
  else if 1/2 < m - ⌊m⌋ then ⌊m⌋ + 1
  else if 2 ∣ ⌊m⌋ then ⌊m⌋ else ⌊m⌋ + 1

/-- Modelled from the spec: the spec declares the accumulator fields
`float64`. This is IEEE-754 binary64 rounding to nearest, ties to even,
at 53 significant bits, for values in the normal range (overflow and
subnormals, irrelevant at the magnitudes used below, are not modelled):
the value is scaled so that its significand lies in `[2^52, 2^53)`,
rounded half-to-even to an integer, and scaled back. -/
def roundF (x : ℚ) : ℚ :=
  if x = 0 then 0
  else (roundHalfEven (x / 2 ^ (Int.log 2 |x| - 52)) : ℚ) * 2 ^ (Int.log 2 |x| - 52)

/-- `float64` addition: the exact sum, correctly rounded. -/
def addF (x y : ℚ) : ℚ := roundF (x + y)

/-- `float64` multiplication: the exact product, correctly rounded. -/
def mulF (x y : ℚ) : ℚ := roundF (x * y)

/-- Modelled from the spec: `ingest(value)` as the program executes it,
with `float64` rounding on the `sum += value` and
`sumSquared += value*value` accumulations (the count and the min/max
comparisons involve no rounding). -/
def AggregateSample.IngestF (a : AggregateSample) (v : ℚ) (now : ℕ) : AggregateSample :=
  { Count := a.Count + 1
    Sum := addF a.Sum v
    SumSq := addF a.SumSq (mulF v v)
    Min := if a.Count = 0 then v else min a.Min v
    Max := if a.Count = 0 then v else max a.Max v
    LastUpdated := now }

/-- Fold a sequence of (value, instant) observations with `float64`
accumulation. -/
def ingestFoldF (a : AggregateSample) (l : List (ℚ × ℕ)) : AggregateSample :=
  l.foldl (fun acc p => acc.IngestF p.1 p.2) a

lemma int_log2_eq {r : ℚ} {k : ℤ} (h0 : (2:ℚ)^k ≤ r) (h1 : r < (2:ℚ)^(k+1)) :
    Int.log 2 r = k := by
  have hr : 0 < r := lt_of_lt_of_le (by positivity) h0
  have hcast : ((2:ℕ):ℚ) = (2:ℚ) := by norm_num
  apply le_antisymm
  · by_contra hlt
    push_neg at hlt
    have h2 : (2:ℚ)^(k+1) ≤ (2:ℚ)^(Int.log 2 r) :=
      zpow_le_zpow_right₀ (by norm_num) (by omega)
    have h3 : ((2:ℕ):ℚ)^(Int.log 2 r) ≤ r := Int.zpow_log_le_self (by norm_num) hr
    rw [hcast] at h3
    linarith
  · have h4 := @Int.log_mono_right ℚ _ _ 2 ((2:ℚ)^k) r (by positivity) h0
    rw [show ((2:ℚ)^k) = ((2:ℕ):ℚ)^k from by rw [hcast]] at h4
    rwa [Int.log_zpow (by norm_num)] at h4

lemma roundHalfEven_intCast (n : ℤ) : roundHalfEven (n : ℚ) = n := by
  unfold roundHalfEven
  rw [Int.floor_intCast]
  norm_num

lemma roundF_zero : roundF 0 = 0 := by
  unfold roundF
  simp

lemma roundF_int_zpow (n k : ℤ) (h0 : (2:ℚ)^(52:ℕ) ≤ (n:ℚ)) (h1 : (n:ℚ) < 2^(53:ℕ)) :
    roundF ((n:ℚ) * 2^k) = (n:ℚ) * 2^k := by
  have h2k : (0:ℚ) < 2^k := by positivity
  have hn : (0:ℚ) < (n:ℚ) := lt_of_lt_of_le (by positivity) h0
  have hx : (0:ℚ) < (n:ℚ) * 2^k := by positivity
  have hlog : Int.log 2 |(n:ℚ) * 2^k| = 52 + k := by
    rw [abs_of_pos hx]
    apply int_log2_eq
    · rw [zpow_add₀ (by norm_num : (2:ℚ) ≠ 0)]
      apply mul_le_mul_of_nonneg_right _ h2k.le
      rw [show ((2:ℚ)^(52:ℤ)) = (2:ℚ)^(52:ℕ) from by norm_num]
      exact h0
    · rw [show (52 + k + 1 : ℤ) = 53 + k from by ring,
        zpow_add₀ (by norm_num : (2:ℚ) ≠ 0)]
      apply mul_lt_mul_of_pos_right _ h2k
      rw [show ((2:ℚ)^(53:ℤ)) = (2:ℚ)^(53:ℕ) from by norm_num]
      exact h1
  unfold roundF
  rw [if_neg hx.ne', hlog, show (52 + k - 52 : ℤ) = k from by ring,
    show (n:ℚ) * 2^k / 2^k = (n:ℚ) from by field_simp, roundHalfEven_intCast]

lemma roundF_one : roundF 1 = 1 := by
  have h := roundF_int_zpow (2^52) (-52) (by push_cast; norm_num) (by push_cast; norm_num)
  rwa [show ((2^52:ℤ):ℚ) * 2^(-52:ℤ) = 1 from by push_cast; norm_num [zpow_neg]] at h

lemma roundF_pow53 : roundF ((2:ℚ)^(53:ℕ)) = (2:ℚ)^(53:ℕ) := by
  have h := roundF_int_zpow (2^52) 1 (by push_cast; norm_num) (by push_cast; norm_num)
  rwa [show ((2^52:ℤ):ℚ) * 2^(1:ℤ) = (2:ℚ)^(53:ℕ) from by push_cast; norm_num] at h

lemma roundF_tie : roundF ((2:ℚ)^(53:ℕ) + 1) = (2:ℚ)^(53:ℕ) := by
  have hx : (0:ℚ) < (2:ℚ)^(53:ℕ) + 1 := by positivity
  have hlog : Int.log 2 |(2:ℚ)^(53:ℕ) + 1| = 53 := by
    rw [abs_of_pos hx]
    apply int_log2_eq
    · rw [show ((2:ℚ)^(53:ℤ)) = (2:ℚ)^(53:ℕ) from by norm_num]
      linarith
    · rw [show ((2:ℚ)^(53+1:ℤ)) = (2:ℚ)^(54:ℕ) from by norm_num,
        show ((2:ℚ)^(54:ℕ)) = 2 * 2^(53:ℕ) from by ring]
      have h1 : (1:ℚ) < 2^(53:ℕ) := by norm_num
      linarith
  unfold roundF
  rw [if_neg hx.ne', hlog, show (53 - 52 : ℤ) = 1 from by norm_num,
    show ((2:ℚ)^(53:ℕ) + 1) / 2^(1:ℤ) = 2^(52:ℕ) + 1/2 from by
      rw [show ((2:ℚ)^(1:ℤ)) = 2 from by norm_num,
        div_eq_iff (by norm_num : (2:ℚ) ≠ 0)]
      ring]
  unfold roundHalfEven
  rw [show ⌊(2^(52:ℕ) + 1/2 : ℚ)⌋ = 2^52 from by
      rw [Int.floor_eq_iff]
      constructor
      · push_cast
        norm_num
      · push_cast
        norm_num,
    show (2^(52:ℕ) + 1/2 : ℚ) - ((2^52:ℤ):ℚ) = 1/2 from by push_cast; ring,
    if_neg (by norm_num : ¬((1:ℚ)/2 < 1/2)), if_neg (by norm_num : ¬((1:ℚ)/2 < 1/2)),
    if_pos (by norm_num : (2:ℤ) ∣ 2^52)]
  push_cast
  norm_num

lemma ingestF_sum_left :
    (ingestFoldF AggregateSample.empty
      [((1:ℚ), (0:ℕ)), ((2:ℚ)^(53:ℕ), 0), (-((2:ℚ)^(53:ℕ)), 0)]).Sum = 0 := by
  have hS : ∀ (a : AggregateSample) (v : ℚ) (t : ℕ),
      (a.IngestF v t).Sum = addF a.Sum v := fun _ _ _ => rfl
  simp only [ingestFoldF, List.foldl_cons, List.foldl_nil, hS]
  rw [show AggregateSample.empty.Sum = 0 from rfl,
    show addF 0 1 = 1 from by unfold addF; rw [zero_add, roundF_one],
    show addF 1 ((2:ℚ)^(53:ℕ)) = (2:ℚ)^(53:ℕ) from by
      unfold addF
      rw [show (1:ℚ) + (2:ℚ)^(53:ℕ) = (2:ℚ)^(53:ℕ) + 1 from by ring, roundF_tie]]
  unfold addF
  rw [show (2:ℚ)^(53:ℕ) + -((2:ℚ)^(53:ℕ)) = 0 from by ring, roundF_zero]

lemma ingestF_sum_right :
    (ingestFoldF AggregateSample.empty
      [(((2:ℚ)^(53:ℕ)), (0:ℕ)), (-((2:ℚ)^(53:ℕ)), 0), ((1:ℚ), 0)]).Sum = 1 := by
  have hS : ∀ (a : AggregateSample) (v : ℚ) (t : ℕ),
      (a.IngestF v t).Sum = addF a.Sum v := fun _ _ _ => rfl
  simp only [ingestFoldF, List.foldl_cons, List.foldl_nil, hS]
  rw [show AggregateSample.empty.Sum = 0 from rfl,
    show addF 0 ((2:ℚ)^(53:ℕ)) = (2:ℚ)^(53:ℕ) from by
      unfold addF; rw [zero_add, roundF_pow53],
    show addF ((2:ℚ)^(53:ℕ)) (-((2:ℚ)^(53:ℕ))) = 0 from by
      unfold addF
      rw [show (2:ℚ)^(53:ℕ) + -((2:ℚ)^(53:ℕ)) = 0 from by ring, roundF_zero]]
  unfold addF
  rw [zero_add, roundF_one]

/-- Counterexample for C2 as stated: under the program's `float64`
accumulation the aggregate is not order-insensitive. Folding the values
1, 2^53, −2^53 — each exactly representable in binary64 — gives sum 0 in
that order but sum 1 after a permutation, because the intermediate
1 + 2^53 rounds back to 2^53 (ties to even), so the two aggregates'
(count, sum, sumSquared, min, max) differ. -/
theorem aggregate_order_sensitive_float64 :
    ([((1:ℚ), (0:ℕ)), ((2:ℚ)^(53:ℕ), 0), (-((2:ℚ)^(53:ℕ)), 0)]).Perm
        [(((2:ℚ)^(53:ℕ)), 0), (-((2:ℚ)^(53:ℕ)), 0), ((1:ℚ), 0)] ∧
    (ingestFoldF AggregateSample.empty
        [((1:ℚ), (0:ℕ)), ((2:ℚ)^(53:ℕ), 0), (-((2:ℚ)^(53:ℕ)), 0)]).Sum = 0 ∧
    (ingestFoldF AggregateSample.empty
        [(((2:ℚ)^(53:ℕ)), (0:ℕ)), (-((2:ℚ)^(53:ℕ)), 0), ((1:ℚ), 0)]).Sum = 1 ∧
    (ingestFoldF AggregateSample.empty
        [((1:ℚ), (0:ℕ)), ((2:ℚ)^(53:ℕ), 0), (-((2:ℚ)^(53:ℕ)), 0)]).stats ≠
      (ingestFoldF AggregateSample.empty
        [(((2:ℚ)^(53:ℕ)), (0:ℕ)), (-((2:ℚ)^(53:ℕ)), 0), ((1:ℚ), 0)]).stats := by
  refine ⟨?_, ingestF_sum_left, ingestF_sum_right, ?_⟩
  · exact (List.Perm.swap ((2:ℚ)^(53:ℕ), 0) ((1:ℚ), 0) [(-((2:ℚ)^(53:ℕ)), 0)]).trans
      (List.Perm.cons ((2:ℚ)^(53:ℕ), 0)
        (List.Perm.swap (-((2:ℚ)^(53:ℕ)), 0) ((1:ℚ), 0) []))
  · intro h
    have h2 : (ingestFoldF AggregateSample.empty
          [((1:ℚ), (0:ℕ)), ((2:ℚ)^(53:ℕ), 0), (-((2:ℚ)^(53:ℕ)), 0)]).Sum =
        (ingestFoldF AggregateSample.empty
          [(((2:ℚ)^(53:ℕ)), (0:ℕ)), (-((2:ℚ)^(53:ℕ)), 0), ((1:ℚ), 0)]).Sum :=
      congrArg (fun p => p.2.1) h
    rw [ingestF_sum_left, ingestF_sum_right] at h2
    norm_num at h2

end SimpleMetrics
